import Mathlib

/-!
Shallow embedding of the todo-example-api server (src/index.ts, canonical
JWT-auth variant): in-memory project/todo stores with monotonic counters,
a token registry, the regex route table, and one Lean function per handler.
JavaScript `Map`s are modelled as insertion-ordered association lists,
JSON bodies as association lists of a small JSON value type, and `null`
bodies (unparseable JSON) as `none`.
-/

namespace TodoApi

/-- JSON values as they can appear in a parsed request body. -/
inductive JVal where
  | str (s : String)
  | jbool (b : Bool)
  | num (n : Int)
  | jnull
deriving DecidableEq

/-- A parsed JSON object body. -/
abbrev JObj := List (String × JVal)

/-- `RequestBody`: `none` models a `null` body (JSON parse failure). -/
abbrev RequestBody := Option JObj

/-- JS `Map.get` / object field lookup on an association list. -/
def mapGet {α : Type} : List (String × α) → String → Option α
  | [], _ => none
  | (k, v) :: rest, key => if k = key then some v else mapGet rest key

/-- JS `Map.set`: replace in place if the key exists, else append. -/
def mapSet {α : Type} : List (String × α) → String → α → List (String × α)
  | [], key, v => [(key, v)]
  | (k, w) :: rest, key, v =>
      if k = key then (key, v) :: rest else (k, w) :: mapSet rest key v

/-- JS `Map.delete`: whether the key was present, and the remaining map. -/
def mapDelete {α : Type} : List (String × α) → String → Bool × List (String × α)
  | [], _ => (false, [])
  | (k, v) :: rest, key =>
      if k = key then (true, rest)
      else
        let r := mapDelete rest key
        (r.1, (k, v) :: r.2)

/-- JS `Map.values()` in insertion order. -/
def mapValues {α : Type} (m : List (String × α)) : List α := m.map (·.2)

/-- Decimal digit character. -/
def digitChar (d : Nat) : Char := Char.ofNat (48 + d)

/-- Little-endian decimal digits of `n`, with explicit fuel. -/
def toDecRev : Nat → Nat → List Nat
  | 0, _ => []
  | _ + 1, 0 => []
  | f + 1, n + 1 => (n + 1) % 10 :: toDecRev f ((n + 1) / 10)

/-- JS `String(n)` for a nonnegative integer: decimal rendering. -/
def jsNatToString (n : Nat) : String :=
  if n = 0 then "0" else String.mk (((toDecRev n n).reverse).map digitChar)

/-- JS `String(n)` for an integer. -/
def jsIntToString : Int → String
  | .ofNat n => jsNatToString n
  | .negSucc n => "-" ++ jsNatToString (n + 1)

/-- JS `String(v)` coercion of a JSON value. -/
def jsToString : JVal → String
  | .str s => s
  | .jbool true => "true"
  | .jbool false => "false"
  | .num n => jsIntToString n
  | .jnull => "null"

/-- JS truthiness of a JSON value. -/
def truthy : JVal → Bool
  | .str s => s ≠ ""
  | .jbool b => b
  | .num n => n ≠ 0
  | .jnull => false

/-- JS `String.prototype.trim`. -/
def jsTrim (s : String) : String :=
  String.mk (((s.data.dropWhile Char.isWhitespace).reverse.dropWhile
    Char.isWhitespace).reverse)

/-- `body?.k`: `none` models JS `undefined` (null body or absent key). -/
def fieldVal (body : RequestBody) (k : String) : Option JVal :=
  match body with
  | none => none
  | some o => mapGet o k

/-- `String(body?.k ?? "")`. -/
def fieldStr (body : RequestBody) (k : String) : String :=
  match fieldVal body k with
  | none => ""
  | some .jnull => ""
  | some v => jsToString v

/-- `Boolean(body?.completed ?? false)`. -/
def completedOf (body : RequestBody) : Bool :=
  match fieldVal body "completed" with
  | none => false
  | some .jnull => false
  | some v => truthy v

/-- `typeof body?.dueDate === "string" ? body.dueDate : null`. -/
def dueDateOf (body : RequestBody) : Option String :=
  match fieldVal body "dueDate" with
  | some (.str d) => some d
  | _ => none

/-- A stored project record. -/
structure Project where
  id : String
  name : String
  createdAt : String
deriving DecidableEq

/-- A stored todo record. -/
structure Todo where
  id : String
  projectId : String
  title : String
  completed : Bool
  dueDate : Option String
  createdAt : String
deriving DecidableEq

/-- Response bodies produced by the handlers. -/
inductive ResBody where
  | text (s : String)
  | jsonProject (p : Project)
  | jsonProjects (l : List Project)
  | jsonTodo (t : Todo)
  | jsonTodos (l : List Todo)
  | jsonErr (msg : String)
  | jsonMsg (msg : String)
  | jsonEmptyObj
  | empty
deriving DecidableEq

/-- An HTTP response: status code and body. -/
structure Resp where
  status : Nat
  body : ResBody
deriving DecidableEq

/-- The 404 response produced by `notFound()`. -/
def notFound : Resp := ⟨404, .text "Not Found"⟩

/-- The module-level mutable state: the two stores, their counters, and
the token registry (`validJwts`: token string to expiry in ms). -/
structure ServerState where
  projects : List (String × Project)
  todos : List (String × Todo)
  projectCounter : Nat
  todoCounter : Nat
  validJwts : List (String × Nat)
deriving DecidableEq

/-- The state at process start. -/
def initialState : ServerState := ⟨[], [], 1, 1, []⟩

/-- Handler `listProjects`. -/
def listProjects (s : ServerState) : Resp :=
  ⟨200, .jsonProjects (mapValues s.projects)⟩

/-- Handler `createProject`: validates a non-empty trimmed `name`, assigns
the next sequential id, stores and returns the record with 201. -/
def createProject (s : ServerState) (body : RequestBody) (createdAt : String) :
    Resp × ServerState :=
  let name := jsTrim (fieldStr body "name")
  if name = "" then (⟨400, .text "Missing project name"⟩, s)
  else
    let id := jsNatToString s.projectCounter
    let project : Project := ⟨id, name, createdAt⟩
    (⟨201, .jsonProject project⟩,
      { s with projects := mapSet s.projects id project,
               projectCounter := s.projectCounter + 1 })

/-- Handler `getProject`. -/
def getProject (s : ServerState) (projectId : String) : Resp :=
  match mapGet s.projects projectId with
  | some p => ⟨200, .jsonProject p⟩
  | none => notFound

/-- Handler `updateProject`: 404 if absent, then the same name validation
as create; replaces only the name. -/
def updateProject (s : ServerState) (projectId : String) (body : RequestBody) :
    Resp × ServerState :=
  match mapGet s.projects projectId with
  | none => (notFound, s)
  | some existing =>
    let name := jsTrim (fieldStr body "name")
    if name = "" then (⟨400, .text "Missing project name"⟩, s)
    else
      let updated : Project := { existing with name := name }
      (⟨200, .jsonProject updated⟩,
        { s with projects := mapSet s.projects projectId updated })

/-- Handler `deleteProject`: removes only the project record. -/
def deleteProject (s : ServerState) (projectId : String) : Resp × ServerState :=
  let r := mapDelete s.projects projectId
  if r.1 then (⟨204, .empty⟩, { s with projects := r.2 })
  else (notFound, s)

/-- Handler `listTodos` (by project). -/
def listTodos (s : ServerState) (projectId : String) : Resp :=
  if (mapGet s.projects projectId).isSome then
    ⟨200, .jsonTodos ((mapValues s.todos).filter (fun t => t.projectId = projectId))⟩
  else notFound

/-- Handler `listAllTodos`. -/
def listAllTodos (s : ServerState) : Resp :=
  ⟨200, .jsonTodos (mapValues s.todos)⟩

/-- Handler `createTodo`: parent-existence check first, then title
validation; `completed` by truthiness coercion, `dueDate` only if a
string. -/
def createTodo (s : ServerState) (projectId : String) (body : RequestBody)
    (createdAt : String) : Resp × ServerState :=
  if (mapGet s.projects projectId).isSome then
    let title := jsTrim (fieldStr body "title")
    if title = "" then (⟨400, .text "Missing todo title"⟩, s)
    else
      let id := jsNatToString s.todoCounter
      let todo : Todo :=
        ⟨id, projectId, title, completedOf body, dueDateOf body, createdAt⟩
      (⟨201, .jsonTodo todo⟩,
        { s with todos := mapSet s.todos id todo,
                 todoCounter := s.todoCounter + 1 })
  else (notFound, s)

/-- Handler `getTodo`. -/
def getTodo (s : ServerState) (todoId : String) : Resp :=
  match mapGet s.todos todoId with
  | some t => ⟨200, .jsonTodo t⟩
  | none => notFound

/-- Handler `updateTodo`: each field replaced only when present with the
expected `typeof`; otherwise the prior value is kept. -/
def updateTodo (s : ServerState) (todoId : String) (body : RequestBody) :
    Resp × ServerState :=
  match mapGet s.todos todoId with
  | none => (notFound, s)
  | some todo =>
    let updated : Todo := { todo with
      title := (match fieldVal body "title" with
        | some (.str t) => t
        | _ => todo.title),
      completed := (match fieldVal body "completed" with
        | some (.jbool b) => b
        | _ => todo.completed),
      dueDate := (match fieldVal body "dueDate" with
        | some (.str d) => some d
        | _ => todo.dueDate) }
    (⟨200, .jsonTodo updated⟩, { s with todos := mapSet s.todos todoId updated })

/-- Handler `deleteTodo`. -/
def deleteTodo (s : ServerState) (todoId : String) : Resp × ServerState :=
  let r := mapDelete s.todos todoId
  if r.1 then (⟨204, .empty⟩, { s with todos := r.2 })
  else (notFound, s)

/-- Character list of a string literal (route patterns work on chars). -/
def lit (s : String) : List Char := s.data

/-- Strip a literal off the front of a character list. -/
def dropLit : List Char → List Char → Option (List Char)
  | [], cs => some cs
  | _ :: _, [] => none
  | p :: ps, c :: cs => if c = p then dropLit ps cs else none

/-- `authHandler`: bearer-token check against the token registry at time
`now` (ms). `!expMs || expMs < now` rejects an absent token, a zero
expiry, or an expiry strictly before `now`. -/
def authHandler (authHeader : Option String) (validJwts : List (String × Nat))
    (now : Nat) : Resp :=
  match authHeader with
  | none => ⟨401, .jsonErr "Missing Authorization header"⟩
  | some h =>
    match dropLit (lit "Bearer ") h.data with
    | none => ⟨401, .jsonErr "Missing Authorization header"⟩
    | some tokenChars =>
      let token : String := String.mk tokenChars
      match mapGet validJwts token with
      | none => ⟨401, .jsonErr "Invalid token"⟩
      | some expMs =>
        if expMs = 0 ∨ expMs < now then ⟨401, .jsonErr "Invalid token"⟩
        else ⟨200, .jsonMsg "Token is valid"⟩

/-- True when every character differs from `/` (regex `[^\/]`). -/
def noSlash (s : List Char) : Bool := s.all (· ≠ '/')

/-- Pattern `/^lit$/`: exact literal match, no capture. -/
def patExact (l : List Char) (path : List Char) : Option (List (List Char)) :=
  if path = l then some [] else none

/-- Pattern `/^pre([^\/]+)$/`: literal head then one nonempty slash-free
capture reaching the end. -/
def patSeg (pre : List Char) (path : List Char) : Option (List (List Char)) :=
  match dropLit pre path with
  | none => none
  | some rest => if !rest.isEmpty && noSlash rest then some [rest] else none

/-- Pattern `/^pre([^\/]+)suf$/` where `suf` begins with `/`: literal head,
one nonempty slash-free capture, then the literal tail. -/
def patSegMid (pre suf : List Char) (path : List Char) :
    Option (List (List Char)) :=
  match dropLit pre path with
  | none => none
  | some rest =>
    let cap := rest.takeWhile (· ≠ '/')
    let tail := rest.dropWhile (· ≠ '/')
    if !cap.isEmpty && tail = suf then some [cap] else none

/-- Pattern `/\/$/`: unanchored, so it matches every path that merely ends
with `/`. -/
def patEndSlash (path : List Char) : Option (List (List Char)) :=
  if path.getLast? = some '/' then some [] else none

/-- HTTP methods used by the route table. -/
inductive Method where
  | GET
  | POST
  | PUT
  | DELETE
deriving DecidableEq

/-- Names identifying the handlers in the route table. -/
inductive RName where
  | root
  | rListProjects
  | rCreateProject
  | rGetProject
  | rUpdateProject
  | rDeleteProject
  | rListTodos
  | rCreateTodo
  | rListAllTodos
  | rGetTodo
  | rUpdateTodo
  | rDeleteTodo
  | rLogin
deriving DecidableEq

/-- One entry of the route table. -/
structure RouteEntry where
  method : Method
  pat : List Char → Option (List (List Char))
  rname : RName

/-- The route table of `matchRoute`, in declaration order. -/
def routes : List RouteEntry := [
  ⟨.GET, patEndSlash, .root⟩,
  ⟨.GET, patExact (lit "/projects"), .rListProjects⟩,
  ⟨.POST, patExact (lit "/projects"), .rCreateProject⟩,
  ⟨.GET, patSeg (lit "/projects/"), .rGetProject⟩,
  ⟨.PUT, patSeg (lit "/projects/"), .rUpdateProject⟩,
  ⟨.DELETE, patSeg (lit "/projects/"), .rDeleteProject⟩,
  ⟨.GET, patSegMid (lit "/projects/") (lit "/todos"), .rListTodos⟩,
  ⟨.POST, patSegMid (lit "/projects/") (lit "/todos"), .rCreateTodo⟩,
  ⟨.GET, patExact (lit "/todos"), .rListAllTodos⟩,
  ⟨.GET, patSeg (lit "/todos/"), .rGetTodo⟩,
  ⟨.PUT, patSeg (lit "/todos/"), .rUpdateTodo⟩,
  ⟨.DELETE, patSeg (lit "/todos/"), .rDeleteTodo⟩,
  ⟨.POST, patExact (lit "/login"), .rLogin⟩]

/-- The scan loop of `matchRoute`: a route is taken when its pattern
matches the path and its method equals the request method. -/
def findRoute (path : List Char) (method : Method) :
    List RouteEntry → Option (RName × List (List Char))
  | [] => none
  | r :: rest =>
    match r.pat path with
    | some caps =>
        if method = r.method then some (r.rname, caps)
        else findRoute path method rest
    | none => findRoute path method rest

/-- `matchRoute(path, method)` over the declared route table. -/
def matchRoute (path : List Char) (method : Method) :
    Option (RName × List (List Char)) :=
  findRoute path method routes

/-- One state-mutating request, as dispatched to the handlers. -/
inductive Op where
  | createProj (body : RequestBody) (ts : String)
  | updateProj (id : String) (body : RequestBody)
  | deleteProj (id : String)
  | createTd (pid : String) (body : RequestBody) (ts : String)
  | updateTd (id : String) (body : RequestBody)
  | deleteTd (id : String)

/-- Run one operation against the state. -/
def applyOp (s : ServerState) : Op → Resp × ServerState
  | .createProj body ts => createProject s body ts
  | .updateProj id body => updateProject s id body
  | .deleteProj id => deleteProject s id
  | .createTd pid body ts => createTodo s pid body ts
  | .updateTd id body => updateTodo s id body
  | .deleteTd id => deleteTodo s id

/-- The project id returned by a successful project creation, if the
response is one (only `createProject` answers 201 with a project body). -/
def newProjIds (r : Resp) : List String :=
  match r with
  | ⟨201, .jsonProject p⟩ => [p.id]
  | _ => []

/-- Run a request sequence; collect the project ids returned by the
successful creations, in order. -/
def runOps : ServerState → List Op → ServerState × List String
  | s, [] => (s, [])
  | s, op :: rest =>
    ((runOps (applyOp s op).2 rest).1,
      newProjIds (applyOp s op).1 ++ (runOps (applyOp s op).2 rest).2)

/-- Modelled from the spec: the runtime `Date#toISOString` (not part of
src/) renders `YYYY-MM-DDTHH:MM:SS.mmmZ` from the date components, each
zero-padded decimal. -/
def toISOString (y mo d hh mi ss ms : Nat) : String :=
  String.mk [digitChar (y / 1000 % 10), digitChar (y / 100 % 10),
    digitChar (y / 10 % 10), digitChar (y % 10), '-',
    digitChar (mo / 10 % 10), digitChar (mo % 10), '-',
    digitChar (d / 10 % 10), digitChar (d % 10), 'T',
    digitChar (hh / 10 % 10), digitChar (hh % 10), ':',
    digitChar (mi / 10 % 10), digitChar (mi % 10), ':',
    digitChar (ss / 10 % 10), digitChar (ss % 10), '.',
    digitChar (ms / 100 % 10), digitChar (ms / 10 % 10),
    digitChar (ms % 10), 'Z']

/-- A string is a well-formed ISO-8601 UTC timestamp of the shape
`YYYY-MM-DDTHH:MM:SS.mmmZ`. -/
def isValidISO8601 (s : String) : Bool :=
  match s.data with
  | [y1, y2, y3, y4, h1, m1, m2, h2, d1, d2, t1, hh1, hh2, c1, mi1, mi2, c2,
      s1, s2, p1, x1, x2, x3, z1] =>
    y1.isDigit && y2.isDigit && y3.isDigit && y4.isDigit && h1 = '-' &&
    m1.isDigit && m2.isDigit && h2 = '-' && d1.isDigit && d2.isDigit &&
    t1 = 'T' && hh1.isDigit && hh2.isDigit && c1 = ':' && mi1.isDigit &&
    mi2.isDigit && c2 = ':' && s1.isDigit && s2.isDigit && p1 = '.' &&
    x1.isDigit && x2.isDigit && x3.isDigit && z1 = 'Z'
  | _ => false

/-- Value of a little-endian decimal digit list. -/
def ofDecRev : List Nat → Nat
  | [] => 0
  | d :: ds => d + 10 * ofDecRev ds

/-- A concrete state with one project and one todo, for evaluation. -/
def demoProject : Project := ⟨"1", "Demo", "2024-01-01T00:00:00.000Z"⟩

/-- A concrete stored todo owned by project `"1"`. -/
def demoTodo : Todo := ⟨"1", "1", "Task", false, none, "2024-01-01T00:00:00.000Z"⟩

/-- A reachable-shaped concrete server state holding `demoProject` and
`demoTodo`. -/
def demoS : ServerState := ⟨[("1", demoProject)], [("1", demoTodo)], 2, 2, []⟩

theorem mapGet_mapSet_self {α : Type} (m : List (String × α)) (k : String)
    (v : α) : mapGet (mapSet m k v) k = some v := by
  induction m with
  | nil => simp [mapSet, mapGet]
  | cons hd tl ih =>
    obtain ⟨k', w⟩ := hd
    by_cases h : k' = k <;> simp [mapSet, mapGet, h, ih]

theorem mapSet_eq_self {α : Type} {m : List (String × α)} {k : String} {v : α}
    (h : mapGet m k = some v) : mapSet m k v = m := by
  induction m with
  | nil => simp [mapGet] at h
  | cons hd tl ih =>
    obtain ⟨k', w⟩ := hd
    by_cases hk : k' = k
    · subst hk
      simp [mapGet] at h
      simp [mapSet, h]
    · simp [mapGet, hk] at h
      simp [mapSet, hk, ih h]

theorem mapDelete_fst_true {α : Type} {m : List (String × α)} {k : String}
    {v : α} (h : mapGet m k = some v) : (mapDelete m k).1 = true := by
  induction m with
  | nil => simp [mapGet] at h
  | cons hd tl ih =>
    obtain ⟨k', w⟩ := hd
    by_cases hk : k' = k
    · simp [mapDelete, hk]
    · simp [mapGet, hk] at h
      simp [mapDelete, hk, ih h]

theorem toDecRev_val : ∀ f n, n ≤ f → ofDecRev (toDecRev f n) = n := by
  intro f
  induction f with
  | zero =>
    intro n h
    interval_cases n
    simp [toDecRev, ofDecRev]
  | succ f ih =>
    intro n h
    match n with
    | 0 => simp [toDecRev, ofDecRev]
    | m + 1 =>
      have hdiv : (m + 1) / 10 ≤ f := by
        have := Nat.div_lt_self (Nat.succ_pos m) (by norm_num : 1 < 10)
        omega
      simp [toDecRev, ofDecRev, ih _ hdiv]
      omega

theorem toDecRev_lt : ∀ f n d, d ∈ toDecRev f n → d < 10 := by
  intro f
  induction f with
  | zero =>
    intro n d h
    simp [toDecRev] at h
  | succ f ih =>
    intro n d h
    match n with
    | 0 => simp [toDecRev] at h
    | m + 1 =>
      simp only [toDecRev, List.mem_cons] at h
      rcases h with h | h
      · omega
      · exact ih _ _ h

theorem digitChar_inj_lt {d e : Nat} (hd : d < 10) (he : e < 10)
    (h : digitChar d = digitChar e) : d = e := by
  have key : ∀ i j : Fin 10, digitChar i.1 = digitChar j.1 → i = j := by decide
  exact congrArg Fin.val (key ⟨d, hd⟩ ⟨e, he⟩ h)

theorem digitChar_isDigit {k : Nat} (h : k < 10) :
    (digitChar k).isDigit = true := by
  have key : ∀ i : Fin 10, (digitChar i.1).isDigit = true := by decide
  exact key ⟨k, h⟩

theorem map_digitChar_inj : ∀ l₁ l₂ : List Nat, (∀ d ∈ l₁, d < 10) →
    (∀ d ∈ l₂, d < 10) → l₁.map digitChar = l₂.map digitChar → l₁ = l₂ := by
  intro l₁
  induction l₁ with
  | nil =>
    intro l₂ _ _ h
    cases l₂ <;> simp_all
  | cons a t ih =>
    intro l₂ h1 h2 h
    cases l₂ with
    | nil => simp at h
    | cons b t₂ =>
      simp only [List.map_cons, List.cons.injEq] at h
      obtain ⟨hab, ht⟩ := h
      have hval := digitChar_inj_lt (h1 a (by simp)) (h2 b (by simp)) hab
      subst hval
      rw [ih t₂ (fun d hd => h1 d (by simp [hd])) (fun d hd => h2 d (by simp [hd])) ht]

theorem jsNatToString_injective : Function.Injective jsNatToString := by
  intro m n h
  unfold jsNatToString at h
  split_ifs at h with hm hn hn
  · omega
  · exfalso
    have hd : ['0'] = ((toDecRev n n).reverse).map digitChar :=
      congrArg String.data h
    cases hrev : (toDecRev n n).reverse with
    | nil => rw [hrev] at hd; simp at hd
    | cons d tail =>
      rw [hrev] at hd
      simp only [List.map_cons, List.cons.injEq] at hd
      obtain ⟨hdc, htail⟩ := hd
      have hmem : d ∈ toDecRev n n := by
        rw [← List.mem_reverse, hrev]; simp
      have hd10 : d < 10 := toDecRev_lt n n d hmem
      have hd0 : d = 0 := digitChar_inj_lt hd10 (by norm_num)
        (by rw [← hdc]; decide)
      have htl : tail = [] := by
        cases tail with
        | nil => rfl
        | cons x xs => simp at htail
      have hlist : toDecRev n n = [0] := by
        have := congrArg List.reverse hrev
        rw [List.reverse_reverse] at this
        rw [this, htl, hd0]
        rfl
      have := toDecRev_val n n le_rfl
      rw [hlist] at this
      simp [ofDecRev] at this
      exact hn this.symm
  · exfalso
    have hd : ((toDecRev m m).reverse).map digitChar = ['0'] :=
      congrArg String.data h
    cases hrev : (toDecRev m m).reverse with
    | nil => rw [hrev] at hd; simp at hd
    | cons d tail =>
      rw [hrev] at hd
      simp only [List.map_cons, List.cons.injEq] at hd
      obtain ⟨hdc, htail⟩ := hd
      have hmem : d ∈ toDecRev m m := by
        rw [← List.mem_reverse, hrev]; simp
      have hd10 : d < 10 := toDecRev_lt m m d hmem
      have hd0 : d = 0 := digitChar_inj_lt hd10 (by norm_num)
        (by rw [hdc]; decide)
      have htl : tail = [] := by
        cases tail with
        | nil => rfl
        | cons x xs => simp at htail
      have hlist : toDecRev m m = [0] := by
        have := congrArg List.reverse hrev
        rw [List.reverse_reverse] at this
        rw [this, htl, hd0]
        rfl
      have := toDecRev_val m m le_rfl
      rw [hlist] at this
      simp [ofDecRev] at this
      exact hm this.symm
  · have hd : ((toDecRev m m).reverse).map digitChar
        = ((toDecRev n n).reverse).map digitChar := congrArg String.data h
    have hrev := map_digitChar_inj _ _
      (fun d hd => toDecRev_lt m m d (List.mem_reverse.mp hd))
      (fun d hd => toDecRev_lt n n d (List.mem_reverse.mp hd)) hd
    have hlists : toDecRev m m = toDecRev n n := by
      have := congrArg List.reverse hrev
      simpa using this
    have hm' := toDecRev_val m m le_rfl
    have hn' := toDecRev_val n n le_rfl
    rw [hlists, hn'] at hm'
    exact hm'.symm

theorem applyOp_proj (s : ServerState) (op : Op) :
    (newProjIds (applyOp s op).1 = [] ∧
      (applyOp s op).2.projectCounter = s.projectCounter) ∨
    (newProjIds (applyOp s op).1 = [jsNatToString s.projectCounter] ∧
      (applyOp s op).2.projectCounter = s.projectCounter + 1) := by
  cases op with
  | createProj body ts =>
    by_cases h : jsTrim (fieldStr body "name") = ""
    · left
      simp [applyOp, createProject, h, newProjIds]
    · right
      simp [applyOp, createProject, h, newProjIds]
  | updateProj id body =>
    left
    cases hg : mapGet s.projects id with
    | none => simp [applyOp, updateProject, hg, newProjIds, notFound]
    | some p =>
      by_cases h : jsTrim (fieldStr body "name") = "" <;>
        simp [applyOp, updateProject, hg, h, newProjIds]
  | deleteProj id =>
    left
    by_cases h : (mapDelete s.projects id).1 <;>
      simp [applyOp, deleteProject, h, newProjIds, notFound]
  | createTd pid body ts =>
    left
    by_cases hp : (mapGet s.projects pid).isSome
    · by_cases h : jsTrim (fieldStr body "title") = "" <;>
        simp [applyOp, createTodo, hp, h, newProjIds]
    · simp [applyOp, createTodo, hp, newProjIds, notFound]
  | updateTd id body =>
    left
    cases hg : mapGet s.todos id with
    | none => simp [applyOp, updateTodo, hg, newProjIds, notFound]
    | some t => simp [applyOp, updateTodo, hg, newProjIds]
  | deleteTd id =>
    left
    by_cases h : (mapDelete s.todos id).1 <;>
      simp [applyOp, deleteTodo, h, newProjIds, notFound]

theorem runOps_ids : ∀ (ops : List Op) (s : ServerState),
    ∃ ns : List Nat, (runOps s ops).2 = ns.map jsNatToString ∧
      ns.Pairwise (· < ·) ∧ ∀ n ∈ ns, s.projectCounter ≤ n := by
  intro ops
  induction ops with
  | nil => exact fun s => ⟨[], by simp [runOps], by simp, by simp⟩
  | cons op rest ih =>
    intro s
    obtain ⟨ns₁, h1, h2, h3⟩ := ih (applyOp s op).2
    rcases applyOp_proj s op with ⟨hid, hc⟩ | ⟨hid, hc⟩
    · refine ⟨ns₁, ?_, h2, ?_⟩
      · simp [runOps, hid, h1]
      · intro n hn
        have := h3 n hn
        omega
    · refine ⟨s.projectCounter :: ns₁, ?_, ?_, ?_⟩
      · simp [runOps, hid, h1]
      · rw [List.pairwise_cons]
        refine ⟨fun b hb => ?_, h2⟩
        have := h3 b hb
        omega
      · intro n hn
        rcases List.mem_cons.mp hn with rfl | hn
        · exact le_rfl
        · have := h3 n hn
          omega

/-- C2: for every existing todo and every update body, each of title,
completed and dueDate is replaced exactly when the field is present with
the expected type (string, boolean, string), otherwise the prior value is
retained; the response is 200 with no error, and in particular
`completed: "true"` (a string) leaves the prior completed value. -/
theorem updateTodo_type_strict (s : ServerState) (tid : String) (todo : Todo)
    (body : RequestBody) (h : mapGet s.todos tid = some todo) :
    ∃ t' : Todo,
      updateTodo s tid body
        = (⟨200, .jsonTodo t'⟩, { s with todos := mapSet s.todos tid t' }) ∧
      ((∃ x, fieldVal body "title" = some (.str x) ∧ t'.title = x) ∨
        ((¬ ∃ x, fieldVal body "title" = some (.str x)) ∧
          t'.title = todo.title)) ∧
      ((∃ b, fieldVal body "completed" = some (.jbool b) ∧ t'.completed = b) ∨
        ((¬ ∃ b, fieldVal body "completed" = some (.jbool b)) ∧
          t'.completed = todo.completed)) ∧
      ((∃ d, fieldVal body "dueDate" = some (.str d) ∧ t'.dueDate = some d) ∨
        ((¬ ∃ d, fieldVal body "dueDate" = some (.str d)) ∧
          t'.dueDate = todo.dueDate)) ∧
      (fieldVal body "completed" = some (.str "true") →
        t'.completed = todo.completed) ∧
      t'.id = todo.id ∧ t'.projectId = todo.projectId ∧
      t'.createdAt = todo.createdAt := by
  simp only [updateTodo, h]
  refine ⟨_, rfl, ?_, ?_, ?_, ?_, rfl, rfl, rfl⟩
  · cases hv : fieldVal body "title" with
    | none =>
      right
      refine ⟨?_, by simp [hv]⟩
      rintro ⟨x, hx⟩
      simp at hx
    | some v =>
      cases v with
      | str x => exact Or.inl ⟨x, rfl, by simp [hv]⟩
      | jbool b =>
        right
        refine ⟨?_, by simp [hv]⟩
        rintro ⟨x, hx⟩
        simp at hx
      | num n =>
        right
        refine ⟨?_, by simp [hv]⟩
        rintro ⟨x, hx⟩
        simp at hx
      | jnull =>
        right
        refine ⟨?_, by simp [hv]⟩
        rintro ⟨x, hx⟩
        simp at hx
  · cases hv : fieldVal body "completed" with
    | none =>
      right
      refine ⟨?_, by simp [hv]⟩
      rintro ⟨b, hb⟩
      simp at hb
    | some v =>
      cases v with
      | jbool b => exact Or.inl ⟨b, rfl, by simp [hv]⟩
      | str x =>
        right
        refine ⟨?_, by simp [hv]⟩
        rintro ⟨b, hb⟩
        simp at hb
      | num n =>
        right
        refine ⟨?_, by simp [hv]⟩
        rintro ⟨b, hb⟩
        simp at hb
      | jnull =>
        right
        refine ⟨?_, by simp [hv]⟩
        rintro ⟨b, hb⟩
        simp at hb
  · cases hv : fieldVal body "dueDate" with
    | none =>
      right
      refine ⟨?_, by simp [hv]⟩
      rintro ⟨d, hd⟩
      simp at hd
    | some v =>
      cases v with
      | str d => exact Or.inl ⟨d, rfl, by simp [hv]⟩
      | jbool b =>
        right
        refine ⟨?_, by simp [hv]⟩
        rintro ⟨d, hd⟩
        simp at hd
      | num n =>
        right
        refine ⟨?_, by simp [hv]⟩
        rintro ⟨d, hd⟩
        simp at hd
      | jnull =>
        right
        refine ⟨?_, by simp [hv]⟩
        rintro ⟨d, hd⟩
        simp at hd
  · intro hv
    simp [hv]

/-- C2 witness: the theorem applied at a concrete state and a body whose
`completed` is the string `"true"`. -/
theorem updateTodo_type_strict_check :
    mapGet demoS.todos "1" = some demoTodo ∧
    (∃ t' : Todo,
      updateTodo demoS "1" (some [("completed", .str "true")])
        = (⟨200, .jsonTodo t'⟩,
            { demoS with todos := mapSet demoS.todos "1" t' }) ∧
      ((∃ x, fieldVal (some [("completed", .str "true")]) "title"
          = some (.str x) ∧ t'.title = x) ∨
        ((¬ ∃ x, fieldVal (some [("completed", .str "true")]) "title"
          = some (.str x)) ∧ t'.title = demoTodo.title)) ∧
      ((∃ b, fieldVal (some [("completed", .str "true")]) "completed"
          = some (.jbool b) ∧ t'.completed = b) ∨
        ((¬ ∃ b, fieldVal (some [("completed", .str "true")]) "completed"
          = some (.jbool b)) ∧ t'.completed = demoTodo.completed)) ∧
      ((∃ d, fieldVal (some [("completed", .str "true")]) "dueDate"
          = some (.str d) ∧ t'.dueDate = some d) ∨
        ((¬ ∃ d, fieldVal (some [("completed", .str "true")]) "dueDate"
          = some (.str d)) ∧ t'.dueDate = demoTodo.dueDate)) ∧
      (fieldVal (some [("completed", .str "true")]) "completed"
          = some (.str "true") → t'.completed = demoTodo.completed) ∧
      t'.id = demoTodo.id ∧ t'.projectId = demoTodo.projectId ∧
      t'.createdAt = demoTodo.createdAt) :=
  ⟨by decide,
    updateTodo_type_strict demoS "1" demoTodo
      (some [("completed", .str "true")]) (by decide)⟩

/-- C3: creating a todo under an absent project id yields the 404
not-found response regardless of the body, and the state — in particular
the todo store and the todo counter — is unchanged. -/
theorem createTodo_missing_project_404 (s : ServerState) (pid : String)
    (body : RequestBody) (ts : String) (h : mapGet s.projects pid = none) :
    createTodo s pid body ts = (⟨404, .text "Not Found"⟩, s) := by
  simp [createTodo, h, notFound]

/-- C3 witness: a create under `"does-not-exist"` with a null body (not
even a title) still answers 404, not 400, and changes nothing. -/
theorem createTodo_missing_project_404_check :
    mapGet demoS.projects "does-not-exist" = none ∧
    createTodo demoS "does-not-exist" none "ts"
      = (⟨404, .text "Not Found"⟩, demoS) :=
  ⟨by decide,
    createTodo_missing_project_404 demoS "does-not-exist" none "ts" (by decide)⟩

/-- C9: updating an existing todo with any string `title` — including the
empty string — stores exactly that string, with no trimming and no
non-emptiness check, and still answers 200. -/
theorem updateTodo_title_exact (s : ServerState) (tid : String) (todo : Todo)
    (body : RequestBody) (x : String) (h : mapGet s.todos tid = some todo)
    (hx : fieldVal body "title" = some (.str x)) :
    ∃ t' : Todo,
      updateTodo s tid body
        = (⟨200, .jsonTodo t'⟩, { s with todos := mapSet s.todos tid t' }) ∧
      t'.title = x := by
  simp only [updateTodo, h, hx]
  exact ⟨_, rfl, rfl⟩

/-- C9 witness: an update whose title is the empty string leaves the todo
stored with an empty title. -/
theorem updateTodo_title_exact_check :
    mapGet demoS.todos "1" = some demoTodo ∧
    fieldVal (some [("title", .str "")]) "title" = some (.str "") ∧
    (∃ t' : Todo,
      updateTodo demoS "1" (some [("title", .str "")])
        = (⟨200, .jsonTodo t'⟩,
            { demoS with todos := mapSet demoS.todos "1" t' }) ∧
      t'.title = "") :=
  ⟨by decide, by decide,
    updateTodo_title_exact demoS "1" demoTodo (some [("title", .str "")]) ""
      (by decide) (by decide)⟩

/-- C10: a successful todo creation derives `completed` from the body by
JS truthiness coercion, not a type check: a present non-null value
contributes its truthiness — so the truthy strings `"false"` and `"true"`
both give `true` — while an absent, null, or falsy value gives `false`. -/
theorem createTodo_completed_truthy (s : ServerState) (pid : String)
    (o : JObj) (ts : String) (hp : (mapGet s.projects pid).isSome = true)
    (ht : ¬ jsTrim (fieldStr (some o) "title") = "") :
    ∃ td : Todo, (createTodo s pid (some o) ts).1 = ⟨201, .jsonTodo td⟩ ∧
      (∀ v, mapGet o "completed" = some v → v ≠ .jnull →
        td.completed = truthy v) ∧
      (mapGet o "completed" = none → td.completed = false) ∧
      (mapGet o "completed" = some .jnull → td.completed = false) ∧
      truthy (.str "false") = true ∧ truthy (.str "true") = true ∧
      truthy (.str "") = false ∧ (∀ b, truthy (.jbool b) = b) ∧
      (∀ n : Int, truthy (.num n) = decide (¬ n = 0)) := by
  simp only [createTodo, hp, if_true, if_neg ht]
  refine ⟨_, rfl, ?_, ?_, ?_, by decide, by decide, by decide,
    fun b => rfl, fun n => rfl⟩
  · intro v hv hnv
    cases v with
    | str x => simp [completedOf, fieldVal, hv]
    | jbool b => simp [completedOf, fieldVal, hv]
    | num n => simp [completedOf, fieldVal, hv]
    | jnull => exact absurd rfl hnv
  · intro hv
    simp [completedOf, fieldVal, hv]
  · intro hv
    simp [completedOf, fieldVal, hv]

/-- C10 witness: creating with `completed: "false"` (a truthy string)
stores `completed = true`. -/
theorem createTodo_completed_truthy_check :
    (mapGet demoS.projects "1").isSome = true ∧
    ¬ jsTrim (fieldStr (some [("title", .str "T"), ("completed", .str "false")])
      "title") = "" ∧
    (∃ td : Todo,
      (createTodo demoS "1"
        (some [("title", .str "T"), ("completed", .str "false")]) "ts").1
        = ⟨201, .jsonTodo td⟩ ∧
      (∀ v, mapGet [("title", JVal.str "T"), ("completed", JVal.str "false")]
          "completed" = some v → v ≠ .jnull → td.completed = truthy v) ∧
      (mapGet [("title", JVal.str "T"), ("completed", JVal.str "false")]
          "completed" = none → td.completed = false) ∧
      (mapGet [("title", JVal.str "T"), ("completed", JVal.str "false")]
          "completed" = some .jnull → td.completed = false) ∧
      truthy (.str "false") = true ∧ truthy (.str "true") = true ∧
      truthy (.str "") = false ∧ (∀ b, truthy (.jbool b) = b) ∧
      (∀ n : Int, truthy (.num n) = decide (¬ n = 0))) :=
  ⟨by decide, by decide,
    createTodo_completed_truthy demoS "1"
      [("title", .str "T"), ("completed", .str "false")] "ts"
      (by decide) (by decide)⟩

theorem mapGet_eq_none_of_not_mem {α : Type} {m : List (String × α)}
    {k : String} (h : k ∉ m.map Prod.fst) : mapGet m k = none := by
  induction m with
  | nil => rfl
  | cons hd tl ih =>
    obtain ⟨k', v⟩ := hd
    simp only [List.map_cons, List.mem_cons] at h
    push_neg at h
    have hne : ¬ k' = k := fun hkk => h.1 hkk.symm
    simp [mapGet, hne, ih h.2]

theorem mapGet_mapDelete_self {α : Type} {m : List (String × α)} {k : String}
    (hnd : (m.map Prod.fst).Nodup) : mapGet (mapDelete m k).2 k = none := by
  induction m with
  | nil => rfl
  | cons hd tl ih =>
    obtain ⟨k', v⟩ := hd
    simp only [List.map_cons, List.nodup_cons] at hnd
    by_cases hk : k' = k
    · subst hk
      simp only [mapDelete, if_pos rfl]
      exact mapGet_eq_none_of_not_mem hnd.1
    · simp [mapDelete, hk, mapGet, ih hnd.2]

/-- C6: deleting an existing project answers 204 and removes only the
project record: the todo store is untouched, the project itself is gone,
and every child todo still reads back with 200, reporting the now-deleted
project id unchanged. (`hnd`: `Map` keys are unique, an invariant of every
reachable store.) -/
theorem deleteProject_keeps_child_todos (s : ServerState) (pid : String)
    (p : Project) (h : mapGet s.projects pid = some p)
    (hnd : (s.projects.map Prod.fst).Nodup) :
    (deleteProject s pid).1 = ⟨204, .empty⟩ ∧
    (deleteProject s pid).2.todos = s.todos ∧
    getProject (deleteProject s pid).2 pid = ⟨404, .text "Not Found"⟩ ∧
    ∀ tid t, mapGet s.todos tid = some t → t.projectId = pid →
      getTodo (deleteProject s pid).2 tid = ⟨200, .jsonTodo t⟩ ∧
      t.projectId = pid := by
  have hdel := mapDelete_fst_true h
  refine ⟨by simp [deleteProject, hdel], by simp [deleteProject, hdel], ?_, ?_⟩
  · simp [deleteProject, hdel, getProject, mapGet_mapDelete_self hnd, notFound]
  · intro tid t ht hpid
    refine ⟨?_, hpid⟩
    simp [deleteProject, hdel, getTodo, ht]

/-- C6 witness: deleting project "1" from the demo state keeps its child
todo readable with the dangling project id. -/
theorem deleteProject_keeps_child_todos_check :
    mapGet demoS.projects "1" = some demoProject ∧
    (demoS.projects.map Prod.fst).Nodup ∧
    ((deleteProject demoS "1").1 = ⟨204, .empty⟩ ∧
    (deleteProject demoS "1").2.todos = demoS.todos ∧
    getProject (deleteProject demoS "1").2 "1" = ⟨404, .text "Not Found"⟩ ∧
    ∀ tid t, mapGet demoS.todos tid = some t → t.projectId = "1" →
      getTodo (deleteProject demoS "1").2 tid = ⟨200, .jsonTodo t⟩ ∧
      t.projectId = "1") :=
  ⟨by decide, by decide,
    deleteProject_keeps_child_todos demoS "1" demoProject (by decide) (by decide)⟩

/-- C1 counterexample: with the registry holding token `tok` expiring at
1000 ms and the current time exactly 1000 ms — expiry at the current
time — the gate accepts with 200, while the claim demands a 401. -/
theorem auth_accepts_at_exact_expiry :
    authHandler (some "Bearer tok") [("tok", 1000)] 1000
      = ⟨200, .jsonMsg "Token is valid"⟩ := by decide

/-- C1 amended: for a request carrying a bearer token, the gate answers
401 Invalid token iff the token is absent from the registry or its
recorded expiry is zero or strictly before the current time; when the
current time equals a positive recorded expiry the request is accepted. -/
theorem auth_invalid_token_iff (h token : String)
    (jwts : List (String × Nat)) (now : Nat)
    (hb : dropLit (lit "Bearer ") h.data = some token.data) :
    ((authHandler (some h) jwts now).status = 401 ↔
      mapGet jwts token = none ∨
      ∃ e, mapGet jwts token = some e ∧ (e = 0 ∨ e < now)) ∧
    (∀ e, mapGet jwts token = some e → e ≠ 0 → now ≤ e →
      authHandler (some h) jwts now = ⟨200, .jsonMsg "Token is valid"⟩) := by
  have hmk : String.mk token.data = token := by cases token; rfl
  simp only [authHandler, hb, hmk]
  cases hg : mapGet jwts token with
  | none =>
    refine ⟨by simp, ?_⟩
    intro e he
    simp at he
  | some e =>
    constructor
    · by_cases hc : e = 0 ∨ e < now
      · simp [hc]
      · simp only [if_neg hc]
        constructor
        · intro habs
          simp at habs
        · rintro (habs | ⟨e', he', hc'⟩)
          · cases habs
          · cases he'
            exact absurd hc' hc
    · intro e' he' hne hle
      injection he' with he2
      subst he2
      have hc : ¬(e = 0 ∨ e < now) := by omega
      simp [hc]

/-- C1 amended witness: the theorem applied with token `tok`, expiry 5 ms,
current time 6 ms. -/
theorem auth_invalid_token_iff_check :
    dropLit (lit "Bearer ") "Bearer tok".data = some "tok".data ∧
    (((authHandler (some "Bearer tok") [("tok", 5)] 6).status = 401 ↔
      mapGet [("tok", 5)] "tok" = none ∨
      ∃ e, mapGet [("tok", 5)] "tok" = some e ∧ (e = 0 ∨ e < 6)) ∧
    (∀ e, mapGet [("tok", 5)] "tok" = some e → e ≠ 0 → 6 ≤ e →
      authHandler (some "Bearer tok") [("tok", 5)] 6
        = ⟨200, .jsonMsg "Token is valid"⟩)) :=
  ⟨by decide, auth_invalid_token_iff "Bearer tok" "tok" [("tok", 5)] 6 (by decide)⟩

/-- C5 counterexample: a PUT update of an existing project whose body is
unparseable JSON (a null body) answers 400, not success. -/
theorem updateProject_null_body_400 :
    mapGet demoS.projects "1" = some demoProject ∧
    (updateProject demoS "1" none).1 = ⟨400, .text "Missing project name"⟩ := by
  decide

/-- C5 amended: an unparseable JSON body is processed as if no fields were
supplied and is never itself rejected: both creates fail their presence
validation with 400 (404 first for a todo under a missing project), a
todo update answers 200 leaving the record unchanged, but a project
update fails its name validation with 400 (leaving the record
unchanged) rather than returning success. -/
theorem malformed_body_acts_as_absent (s : ServerState) (pid tid ts : String) :
    createProject s none ts = (⟨400, .text "Missing project name"⟩, s) ∧
    (mapGet s.projects pid = none →
      createTodo s pid none ts = (⟨404, .text "Not Found"⟩, s)) ∧
    ((mapGet s.projects pid).isSome = true →
      createTodo s pid none ts = (⟨400, .text "Missing todo title"⟩, s)) ∧
    (∀ todo, mapGet s.todos tid = some todo →
      updateTodo s tid none = (⟨200, .jsonTodo todo⟩, s)) ∧
    (∀ p, mapGet s.projects pid = some p →
      updateProject s pid none = (⟨400, .text "Missing project name"⟩, s)) := by
  have hname : jsTrim (fieldStr none "name") = "" := by decide
  have htitle : jsTrim (fieldStr none "title") = "" := by decide
  refine ⟨?_, ?_, ?_, ?_, ?_⟩
  · simp [createProject, hname]
  · intro h
    simp [createTodo, h, notFound]
  · intro h
    simp [createTodo, h, htitle, notFound]
  · intro todo h
    simp only [updateTodo, h, fieldVal]
    rw [mapSet_eq_self h]
  · intro p h
    simp [updateProject, h, hname]

/-- C5 amended witness: the theorem applied to the demo state; in
particular its todo-update clause applies to the stored demo todo. -/
theorem malformed_body_acts_as_absent_check :
    createProject demoS none "ts" = (⟨400, .text "Missing project name"⟩, demoS) ∧
    (mapGet demoS.projects "1" = none →
      createTodo demoS "1" none "ts" = (⟨404, .text "Not Found"⟩, demoS)) ∧
    ((mapGet demoS.projects "1").isSome = true →
      createTodo demoS "1" none "ts"
        = (⟨400, .text "Missing todo title"⟩, demoS)) ∧
    (∀ todo, mapGet demoS.todos "1" = some todo →
      updateTodo demoS "1" none = (⟨200, .jsonTodo todo⟩, demoS)) ∧
    (∀ p, mapGet demoS.projects "1" = some p →
      updateProject demoS "1" none
        = (⟨400, .text "Missing project name"⟩, demoS)) :=
  malformed_body_acts_as_absent demoS "1" "1" "ts"

theorem findRoute_none_iff (path : List Char) (m : Method) :
    ∀ rs : List RouteEntry, (findRoute path m rs = none ↔
      ∀ r ∈ rs, ¬(r.method = m ∧ (r.pat path).isSome)) := by
  intro rs
  induction rs with
  | nil => simp [findRoute]
  | cons r rest ih =>
    cases hp : r.pat path with
    | none => simp [findRoute, hp, ih]
    | some caps =>
      by_cases hm : m = r.method
      · simp [findRoute, hp, hm, ih]
      · have hrm : ¬ r.method = m := fun hh => hm hh.symm
        simp [findRoute, hp, hm, ih, hrm]

theorem findRoute_some_first (path : List Char) (m : Method) :
    ∀ rs : List RouteEntry, ∀ n caps, findRoute path m rs = some (n, caps) →
      ∃ l₁ r l₂, rs = l₁ ++ r :: l₂ ∧ r.rname = n ∧ r.method = m ∧
        r.pat path = some caps ∧
        ∀ r' ∈ l₁, ¬(r'.method = m ∧ (r'.pat path).isSome) := by
  intro rs
  induction rs with
  | nil =>
    intro n caps h
    simp [findRoute] at h
  | cons r rest ih =>
    intro n caps h
    cases hp : r.pat path with
    | none =>
      rw [findRoute, hp] at h
      obtain ⟨l₁, r₀, l₂, hsplit, h1, h2, h3, h4⟩ := ih n caps h
      refine ⟨r :: l₁, r₀, l₂, by rw [hsplit]; rfl, h1, h2, h3, ?_⟩
      intro r' hr'
      rcases List.mem_cons.mp hr' with rfl | hr'
      · rintro ⟨_, hs⟩
        rw [hp] at hs
        cases hs
      · exact h4 r' hr'
    | some caps' =>
      by_cases hm : m = r.method
      · simp only [findRoute, hp, if_pos hm, Option.some.injEq,
          Prod.mk.injEq] at h
        exact ⟨[], r, rest, rfl, h.1, hm.symm, by rw [hp, h.2], by simp⟩
      · simp only [findRoute, hp, if_neg hm] at h
        obtain ⟨l₁, r₀, l₂, hsplit, h1, h2, h3, h4⟩ := ih n caps h
        refine ⟨r :: l₁, r₀, l₂, by rw [hsplit]; rfl, h1, h2, h3, ?_⟩
        intro r' hr'
        rcases List.mem_cons.mp hr' with rfl | hr'
        · rintro ⟨hmm, _⟩
          exact hm hmm.symm
        · exact h4 r' hr'

/-- C7 amended: route matching is a first-match-wins linear scan of the
declared table — no route matches iff the result is none, and a returned
handler is the earliest whose method and pattern both match — but not
every pattern is exact-anchored: the root GET pattern `/\/$/` matches
every path that merely ends in a slash. -/
theorem matchRoute_first_match_wins (path : List Char) (m : Method) :
    (matchRoute path m = none ↔
      ∀ r ∈ routes, ¬(r.method = m ∧ (r.pat path).isSome)) ∧
    (∀ n caps, matchRoute path m = some (n, caps) →
      ∃ l₁ r l₂, routes = l₁ ++ r :: l₂ ∧ r.rname = n ∧ r.method = m ∧
        r.pat path = some caps ∧
        ∀ r' ∈ l₁, ¬(r'.method = m ∧ (r'.pat path).isSome)) ∧
    (patEndSlash path = some [] ↔ path.getLast? = some '/') := by
  refine ⟨findRoute_none_iff path m routes,
    findRoute_some_first path m routes, ?_⟩
  simp [patEndSlash]

/-- C7 counterexample: GET `/projects/` — a path of no route's exact
template shape — is routed to the root handler, because the pattern
`/\/$/` is a suffix match, not an exact anchor. -/
theorem root_route_suffix_match :
    matchRoute (lit "/projects/") .GET = some (.root, []) ∧
    lit "/projects/" ≠ lit "/" := by decide

/-- C7 check: the characterization applied at a concrete path: the first
matching route for POST `/projects/7/todos` is the todo-create route with
capture `7`. -/
theorem matchRoute_first_match_wins_check :
    (matchRoute (lit "/projects/7/todos") .POST = none ↔
      ∀ r ∈ routes, ¬(r.method = .POST ∧ (r.pat (lit "/projects/7/todos")).isSome)) ∧
    (∀ n caps, matchRoute (lit "/projects/7/todos") .POST = some (n, caps) →
      ∃ l₁ r l₂, routes = l₁ ++ r :: l₂ ∧ r.rname = n ∧ r.method = .POST ∧
        r.pat (lit "/projects/7/todos") = some caps ∧
        ∀ r' ∈ l₁, ¬(r'.method = .POST ∧ (r'.pat (lit "/projects/7/todos")).isSome)) ∧
    (patEndSlash (lit "/projects/7/todos") = some [] ↔
      (lit "/projects/7/todos").getLast? = some '/') :=
  matchRoute_first_match_wins (lit "/projects/7/todos") .POST

theorem toISOString_valid (y mo d hh mi ss ms : Nat) :
    isValidISO8601 (toISOString y mo d hh mi ss ms) = true := by
  have hd : ∀ k : Nat, (digitChar (k % 10)).isDigit = true :=
    fun k => digitChar_isDigit (Nat.mod_lt _ (by norm_num))
  simp [isValidISO8601, toISOString, hd]

/-- C8: creating a project with a non-empty (trimmed) name and then
reading it by the returned id succeeds and yields a record whose name is
the created (trimmed) name, whose id is the generated sequential id, and
whose createdAt is a valid ISO-8601 timestamp. -/
theorem createProject_read_roundtrip (s : ServerState) (name : String)
    (y mo d hh mi ss ms : Nat) (hn : ¬ jsTrim name = "") :
    ∃ p : Project,
      (createProject s (some [("name", .str name)])
        (toISOString y mo d hh mi ss ms)).1 = ⟨201, .jsonProject p⟩ ∧
      p.name = jsTrim name ∧
      p.id = jsNatToString s.projectCounter ∧
      p.createdAt = toISOString y mo d hh mi ss ms ∧
      getProject (createProject s (some [("name", .str name)])
        (toISOString y mo d hh mi ss ms)).2 p.id = ⟨200, .jsonProject p⟩ ∧
      isValidISO8601 p.createdAt = true := by
  have hfs : jsTrim (fieldStr (some [("name", .str name)]) "name")
      = jsTrim name := rfl
  simp only [createProject, hfs, if_neg hn]
  exact ⟨_, rfl, rfl, rfl, rfl,
    by simp [getProject, mapGet_mapSet_self], toISOString_valid y mo d hh mi ss ms⟩

/-- C8 witness: the round trip for `{name: "Groceries"}` from the initial
state at a concrete creation instant. -/
theorem createProject_read_roundtrip_check :
    ¬ jsTrim "Groceries" = "" ∧
    (∃ p : Project,
      (createProject initialState (some [("name", .str "Groceries")])
        (toISOString 2024 5 1 2 3 4 5)).1 = ⟨201, .jsonProject p⟩ ∧
      p.name = jsTrim "Groceries" ∧
      p.id = jsNatToString initialState.projectCounter ∧
      p.createdAt = toISOString 2024 5 1 2 3 4 5 ∧
      getProject (createProject initialState (some [("name", .str "Groceries")])
        (toISOString 2024 5 1 2 3 4 5)).2 p.id = ⟨200, .jsonProject p⟩ ∧
      isValidISO8601 p.createdAt = true) :=
  ⟨by decide,
    createProject_read_roundtrip initialState "Groceries" 2024 5 1 2 3 4 5
      (by decide)⟩

/-- C4: across any sequence of operations within one process lifetime, the
project ids returned by successful creations are the decimal renderings
of a strictly increasing sequence of integers — so every new id exceeds
every earlier one, and the ids are pairwise distinct, never reused even
after deletions. -/
theorem project_ids_strictly_increasing (ops : List Op) :
    ∃ ns : List Nat,
      (runOps initialState ops).2 = ns.map jsNatToString ∧
      ns.Pairwise (· < ·) ∧
      (runOps initialState ops).2.Nodup := by
  obtain ⟨ns, h1, h2, _⟩ := runOps_ids ops initialState
  refine ⟨ns, h1, h2, ?_⟩
  rw [h1]
  exact List.Nodup.map jsNatToString_injective
    (h2.imp fun hlt => Nat.ne_of_lt hlt)

/-- C4 check: the theorem evaluated on a concrete run — create, delete,
create again — whose returned ids are "1" then "2". -/
theorem project_ids_strictly_increasing_check :
    ∃ ns : List Nat,
      (runOps initialState [Op.createProj (some [("name", .str "A")]) "t1",
        Op.deleteProj "1",
        Op.createProj (some [("name", .str "B")]) "t2"]).2
        = ns.map jsNatToString ∧
      ns.Pairwise (· < ·) ∧
      (runOps initialState [Op.createProj (some [("name", .str "A")]) "t1",
        Op.deleteProj "1",
        Op.createProj (some [("name", .str "B")]) "t2"]).2.Nodup :=
  project_ids_strictly_increasing
    [Op.createProj (some [("name", .str "A")]) "t1",
      Op.deleteProj "1",
      Op.createProj (some [("name", .str "B")]) "t2"]

end TodoApi










